import Mathlib

/-!
Verification of the FloorplanV2 geometric/layout core.

The TypeScript source is shallowly embedded over exact rationals (ℚ):
JS numbers are IEEE doubles, but every constant and operation the verified
claims touch (halving of widths, the 0.01 and 0.5 thresholds, grid rounding,
the sign-search sums) is exactly representable, so ℚ is a faithful model on
the inputs considered. Function and field names follow the source
(src/utils.ts and the application file) except where Lean reserves the name
(the TempWall field named end in the source is endPt here).
-/

namespace FloorplanV2

/-- A point in decimal feet, src/utils.ts Point. -/
structure Point where
  x : ℚ
  y : ℚ
deriving DecidableEq, Repr

instance : Inhabited Point := ⟨⟨0, 0⟩⟩

/-- Library record for a placeable object, src/utils.ts ObjectDefinition.
The optional `type` field (standard or door) is not read by any embedded
function and is carried as an optional string for shape fidelity. -/
structure ObjectDefinition where
  id : String
  name : String
  width : ℚ
  length : ℚ
  type : Option String := none
deriving DecidableEq, Repr

/-- A placed object; (x, y) is the center, src/utils.ts PlacedObject. -/
structure PlacedObject where
  id : String
  definitionId : String
  x : ℚ
  y : ℚ
  rotation : ℚ
deriving DecidableEq, Repr

/-- A free-standing wall segment, src/utils.ts TempWall. The source field
named end is a Lean keyword and is called endPt here. -/
structure TempWall where
  id : String
  start : Point
  endPt : Point
  color : Option String := none
  isDashed : Option Bool := none
deriving DecidableEq, Repr

/-- A text annotation, src/utils.ts RoomLabel. -/
structure RoomLabel where
  id : String
  text : String
  x : ℚ
  y : ℚ
  fontSize : ℚ
  rotation : Option ℚ := none
deriving DecidableEq, Repr

/-- A room, src/utils.ts Room. -/
structure Room where
  id : String
  name : String
  points : List Point
  objects : List PlacedObject
  tempWalls : List TempWall
  labels : Option (List RoomLabel) := none
deriving DecidableEq, Repr

/-- An axis-aligned rectangle as the source passes object footprints around. -/
structure Rect where
  x : ℚ
  y : ℚ
  width : ℚ
  height : ℚ
deriving DecidableEq, Repr

/-- src/utils.ts GRID_SIZE (1 foot). -/
def GRID_SIZE : ℚ := 1

/-- The app's snapToGrid: Math.round(val / GRID_SIZE) * GRID_SIZE. Mathlib's
round is floor of x + 1/2, which is exactly JS Math.round's half-up rule. -/
def snapToGrid (val : ℚ) : ℚ :=
  ((round (val / GRID_SIZE) : ℤ) : ℚ) * GRID_SIZE

/-- src/utils.ts calculatePolygonArea: shoelace sum over indices mod length,
absolute value halved. Out-of-range getD defaults are never hit because the
index arithmetic stays below the length. -/
def calculatePolygonArea (points : List Point) : ℚ :=
  |(List.range points.length).foldl (fun area i =>
    let j := (i + 1) % points.length
    area + (points.getD i default).x * (points.getD j default).y
         - (points.getD j default).x * (points.getD i default).y) 0| / 2

/-- src/utils.ts isPointInPolygon: even-odd ray casting. In the source the
division is guarded by JS short-circuit evaluation of the conjunction; here
rational division by zero yields 0, but the conjunction's value agrees with
the source because the divisor is nonzero whenever the first conjunct holds. -/
def isPointInPolygon (point : Point) (polygon : List Point) : Bool :=
  (List.range polygon.length).foldl (fun inside i =>
    let jj := if i = 0 then polygon.length - 1 else i - 1
    let pI := polygon.getD i default
    let pJ := polygon.getD jj default
    let intersect := (decide (pI.y > point.y) != decide (pJ.y > point.y)) &&
      decide (point.x < (pJ.x - pI.x) * (point.y - pI.y) / (pJ.y - pI.y) + pI.x)
    if intersect then !inside else inside) false

/-- src/utils.ts getObjectRect: footprint with width/length swapped at 90/270. -/
def getObjectRect (obj : PlacedObject) (defn : ObjectDefinition) : Rect :=
  let isRotated := obj.rotation = 90 ∨ obj.rotation = 270
  let w := if isRotated then defn.length else defn.width
  let l := if isRotated then defn.width else defn.length
  { x := obj.x - w / 2, y := obj.y - l / 2, width := w, height := l }

/-- src/utils.ts checkRectOverlap. -/
def checkRectOverlap (r1 r2 : Rect) : Bool :=
  !(decide (r2.x ≥ r1.x + r1.width) ||
    decide (r2.x + r2.width ≤ r1.x) ||
    decide (r2.y ≥ r1.y + r1.height) ||
    decide (r2.y + r2.height ≤ r1.y))

/-- src/utils.ts doLinesIntersect: strict parametric segment crossing test. -/
def doLinesIntersect (a b c d : Point) : Bool :=
  let det := (b.x - a.x) * (d.y - c.y) - (b.y - a.y) * (d.x - c.x)
  if det = 0 then false
  else
    let lambda := ((d.y - c.y) * (d.x - a.x) + (c.x - d.x) * (d.y - a.y)) / det
    let gamma := ((a.y - b.y) * (d.x - a.x) + (b.x - a.x) * (d.y - a.y)) / det
    decide (0 < lambda) && decide (lambda < 1) &&
    decide (0 < gamma) && decide (gamma < 1)

/-- src/utils.ts lineIntersectRect: an endpoint inside the (closed) rectangle,
or a strict crossing of one of its four boundary edges. -/
def lineIntersectRect (p1 p2 : Point) (rect : Rect) : Bool :=
  let left := rect.x
  let right := rect.x + rect.width
  let top := rect.y
  let bottom := rect.y + rect.height
  (decide (p1.x ≥ left) && decide (p1.x ≤ right) &&
   decide (p1.y ≥ top) && decide (p1.y ≤ bottom)) ||
  (decide (p2.x ≥ left) && decide (p2.x ≤ right) &&
   decide (p2.y ≥ top) && decide (p2.y ≤ bottom)) ||
  [(Point.mk left top, Point.mk right top),
   (Point.mk right top, Point.mk right bottom),
   (Point.mk right bottom, Point.mk left bottom),
   (Point.mk left bottom, Point.mk left top)].any
    (fun l => doLinesIntersect p1 p2 l.1 l.2)

/-- The wall-snapping forEach of findSnapTarget: for each boundary edge,
a near-vertical edge within the 0.5 threshold of the raw x overrides the
snapped x, and symmetrically for near-horizontal edges and y. The source
mutates snappedX/snappedY; here the pair is threaded through a fold. -/
def wallSnap (points : List Point) (x y : ℚ) (s0 : ℚ × ℚ) : ℚ × ℚ :=
  (List.range points.length).foldl (fun s i =>
    let p1 := points.getD i default
    let p2 := points.getD ((i + 1) % points.length) default
    let s := if |p1.x - p2.x| < 1/100 then
               (if |x - p1.x| < 1/2 then (p1.x, s.2) else s) else s
    if |p1.y - p2.y| < 1/100 then
      (if |y - p1.y| < 1/2 then (s.1, p1.y) else s) else s) s0

/-- The object-snapping forEach of findSnapTarget: each other resolvable
object's footprint edge within the 0.5 threshold of the raw coordinate
overrides the snapped coordinate, later objects winning. -/
def objectSnap (objectLibrary : List ObjectDefinition) (objects : List PlacedObject)
    (x y : ℚ) (objId : Option String) (s1 : ℚ × ℚ) : ℚ × ℚ :=
  objects.foldl (fun s other =>
    if objId = some other.id then s
    else match objectLibrary.find? (fun d => d.id == other.definitionId) with
      | none => s
      | some otherDef =>
        let rect := getObjectRect other otherDef
        let s := [rect.x, rect.x + rect.width].foldl
          (fun s ex => if |x - ex| < 1/2 then (ex, s.2) else s) s
        [rect.y, rect.y + rect.height].foldl
          (fun s ey => if |y - ey| < 1/2 then (s.1, ey) else s) s) s1

/-- The app's findSnapTarget: grid snap, then wall-edge snapping over the
active room's boundary, then edge snapping against other objects' footprints. -/
def findSnapTarget (activeRoom : Option Room) (objectLibrary : List ObjectDefinition)
    (x y : ℚ) (objId : Option String) : Point :=
  match activeRoom with
  | none => ⟨snapToGrid x, snapToGrid y⟩
  | some room =>
    let s2 := objectSnap objectLibrary room.objects x y objId
      (wallSnap room.points x y (snapToGrid x, snapToGrid y))
    ⟨s2.1, s2.2⟩

/-- The app's isValidPlacement. The source's early-return loops become
List.all, which computes the same boolean. -/
def isValidPlacement (objectLibrary : List ObjectDefinition) (obj : PlacedObject)
    (room : Room) (excludeId : Option String) : Bool :=
  match objectLibrary.find? (fun d => d.id == obj.definitionId) with
  | none => false
  | some defn =>
    let rect := getObjectRect obj defn
    (room.objects.all fun other =>
      if some other.id = excludeId ∨ other.id = obj.id then true
      else match objectLibrary.find? (fun d => d.id == other.definitionId) with
        | none => true
        | some otherDef => !checkRectOverlap rect (getObjectRect other otherDef)) &&
    (room.tempWalls.all fun wall => !lineIntersectRect wall.start wall.endPt rect)

/-- The app's history state: the snapshot list and the cursor, App.tsx
useState history / historyIndex. Only the fields the history operations
touch are modeled; the current rooms value set alongside is not read back
by any of them. -/
structure HistState where
  history : List (List Room)
  historyIndex : ℤ
deriving DecidableEq, Repr

/-- The initial history state: empty buffer, cursor -1. -/
def initHist : HistState := ⟨[], -1⟩

/-- The app's addToHistory: truncate past the cursor (slice(0, index+1)),
append, evict the head when over 50 (shift), cap the cursor at 49. The two
React state updaters both read the same pre-call historyIndex, so the pair
update is atomic here. -/
def addToHistory (s : HistState) (newRooms : List Room) : HistState :=
  let nextHistory := s.history.take (s.historyIndex + 1).toNat ++ [newRooms]
  let history' := if 50 < nextHistory.length then nextHistory.tail else nextHistory
  let nextIndex := s.historyIndex + 1
  ⟨history', if 49 < nextIndex then 49 else nextIndex⟩

/-- The app's undo: step the cursor back when it is positive. -/
def histUndo (s : HistState) : HistState :=
  if 0 < s.historyIndex then ⟨s.history, s.historyIndex - 1⟩ else s

/-- The app's redo: step the cursor forward while below length - 1. -/
def histRedo (s : HistState) : HistState :=
  if s.historyIndex < (s.history.length : ℤ) - 1 then
    ⟨s.history, s.historyIndex + 1⟩ else s

/-- History states reachable from the initial state by the three operations. -/
inductive ReachableHist : HistState → Prop where
  | init : ReachableHist initHist
  | push (s : HistState) (rooms : List Room) :
      ReachableHist s → ReachableHist (addToHistory s rooms)
  | undo (s : HistState) : ReachableHist s → ReachableHist (histUndo s)
  | redo (s : HistState) : ReachableHist s → ReachableHist (histRedo s)

/-- A bulk-input wall segment: positive length in feet plus orientation,
parsed upstream from a feet-inches-orientation line. -/
inductive Orientation where
  | H
  | V
deriving DecidableEq, Repr

/-- One parsed bulk segment, length in decimal feet. -/
structure Segment where
  length : ℚ
  orientation : Orientation
deriving DecidableEq, Repr

/-- Sign chosen for segment j by combination i: +1 when bit j of i is set,
mirroring (i & (1 << j)) ? 1 : -1. -/
def signedDir (i j : ℕ) : ℚ :=
  if i &&& (1 <<< j) ≠ 0 then 1 else -1

/-- The lengths of segs signed according to combination i. -/
def signedLens (i : ℕ) (segs : List Segment) : List ℚ :=
  segs.enum.map fun p => p.2.length * signedDir i p.1

/-- The signed sum combination i produces over segs. -/
def signedSum (i : ℕ) (segs : List Segment) : ℚ :=
  (signedLens i segs).sum

/-- The app's solveDirections: for at most 12 segments, exhaustively search
combinations 0 ≤ i < 2^n in increasing order for one whose signed sum is
within 0.01 of zero and return the correspondingly signed lengths; otherwise
(or when the search is exhausted) fall back to the raw positive lengths. -/
def solveDirections (segs : List Segment) : List ℚ :=
  if 12 < segs.length then segs.map (·.length)
  else
    match (List.range (2 ^ segs.length)).find?
        (fun i => decide (|signedSum i segs| < 1/100)) with
    | some i => signedLens i segs
    | none => segs.map (·.length)

/-- The search of solveDirections fails: size cap exceeded, or no combination
sums within 0.01 of zero. In both cases the source keeps every raw length. -/
def solverFails (segs : List Segment) : Prop :=
  12 < segs.length ∨ ∀ i < 2 ^ segs.length, ¬(|signedSum i segs| < 1/100)

instance (segs : List Segment) : Decidable (solverFails segs) := by
  unfold solverFails
  infer_instance

/-- The point-accumulation loop of handleBulkWallInput: walk the segments in
order, consuming the next H or V signed length. The source indexes the
length arrays with post-incremented cursors that never overrun because
solveDirections preserves list length; headD's default is therefore dead. -/
def buildPath : List Segment → List ℚ → List ℚ → Point → List Point
  | [], _, _, _ => []
  | seg :: rest, hs, vs, cur =>
    match seg.orientation with
    | .H =>
      let next : Point := ⟨cur.x + hs.headD 0, cur.y⟩
      next :: buildPath rest hs.tail vs next
    | .V =>
      let next : Point := ⟨cur.x, cur.y + vs.headD 0⟩
      next :: buildPath rest hs vs.tail next

/-- The raw path of handleBulkWallInput: the grid-snapped mouse position
followed by the walked segment endpoints. -/
def pathPointsOf (segments : List Segment) (mousePos : Point) : List Point :=
  let current : Point := ⟨snapToGrid mousePos.x, snapToGrid mousePos.y⟩
  current :: buildPath segments
    (solveDirections (segments.filter fun s => s.orientation == Orientation.H))
    (solveDirections (segments.filter fun s => s.orientation == Orientation.V))
    current

/-- JS Math.min over a spread array, as handleBulkWallInput applies it to the
path's coordinates; the path is never empty there so the nullary case is dead. -/
def jsMinOf (l : List ℚ) : ℚ :=
  match l with
  | [] => 0
  | a :: r => r.foldl min a

/-- The normalization step of handleBulkWallInput: translate so the bounding
box minimum sits at (10, 10), then grid-snap every point. -/
def normalizedPointsOf (segments : List Segment) (mousePos : Point) : List Point :=
  let points := pathPointsOf segments mousePos
  let offsetX := 10 - jsMinOf (points.map (·.x))
  let offsetY := 10 - jsMinOf (points.map (·.y))
  points.map fun p => ⟨snapToGrid (p.x + offsetX), snapToGrid (p.y + offsetY)⟩

/-- The squared distance between the normalized path's last and first points.
The source compares Math.sqrt of this against 1; comparing the square against
1 is the same test since both sides are nonnegative. -/
def closureDistSq (np : List Point) : ℚ :=
  let lastP := np.getLastD default
  let firstP := np.headD default
  (lastP.x - firstP.x) ^ 2 + (lastP.y - firstP.y) ^ 2

/-- What handleBulkWallInput emits: nothing, a closed room boundary, or an
open polyline of temp walls. Ids and names attached to the emitted records
come from the external random-id generator and are not part of the geometry. -/
inductive BulkResult where
  | noop
  | room (points : List Point)
  | walls (walls : List (Point × Point))
deriving DecidableEq, Repr

/-- The consecutive-pair walls the open-path branch builds. -/
def consecWalls : List Point → List (Point × Point)
  | a :: b :: rest => (a, b) :: consecWalls (b :: rest)
  | _ => []

/-- The geometric core of handleBulkWallInput after parsing: empty input is a
no-op; a path whose normalized endpoints are within 1 ft closes into a room
with the final closing point dropped; otherwise the path becomes temp walls. -/
def bulkSolve (segments : List Segment) (mousePos : Point) : BulkResult :=
  if segments.isEmpty then .noop
  else
    let np := normalizedPointsOf segments mousePos
    if closureDistSq np < 1 then .room np.dropLast
    else .walls (consecWalls np)

/-- The characters JS regex \s and parseFloat's leading trim accept. -/
def isJsSpace (c : Char) : Bool :=
  c = ' ' || c = '\t' || c = '\n' || c = '\r' || c = '\x0b' || c = '\x0c' ||
  c = ' ' || c = ' ' || c = ' ' || c = ' ' || c = ' ' ||
  c = ' ' || c = ' ' || c = ' ' || c = ' ' || c = ' ' ||
  c = ' ' || c = ' ' || c = ' ' || c = ' ' || c = ' ' ||
  c = ' ' || c = ' ' || c = '　' || c = '﻿'

/-- JS parseInt on a run of decimal digits. -/
def natOfDigits (ds : List Char) : ℕ :=
  ds.foldl (fun n c => 10 * n + (c.toNat - 48)) 0

/-- Match the regex (\d+)'\s*(\d+)" at the start of the character list.
The regex's greedy \d+ and \s* need no backtracking here: each is followed
by a character its own class excludes, so the maximal run is the only
candidate. Returns the two captured parseInt values. -/
def matchFIAt (l : List Char) : Option (ℕ × ℕ) :=
  let d1 := l.takeWhile Char.isDigit
  let r1 := l.dropWhile Char.isDigit
  if d1.isEmpty then none
  else
    match r1 with
    | '\'' :: r2 =>
      let r3 := r2.dropWhile isJsSpace
      let d2 := r3.takeWhile Char.isDigit
      let r4 := r3.dropWhile Char.isDigit
      if d2.isEmpty then none
      else
        match r4 with
        | '"' :: _ => some (natOfDigits d1, natOfDigits d2)
        | _ => none
    | _ => none

/-- JS String.match for (\d+)'\s*(\d+)": try the pattern at every start
position from the left, as the regex engine does. -/
def searchFI : List Char → Option (ℕ × ℕ)
  | [] => none
  | c :: cs =>
    match matchFIAt (c :: cs) with
    | some v => some v
    | none => searchFI cs

/-- Match the regex (\d+)' at the start of the character list. -/
def matchFeetAt (l : List Char) : Option ℕ :=
  let d1 := l.takeWhile Char.isDigit
  let r1 := l.dropWhile Char.isDigit
  if d1.isEmpty then none
  else
    match r1 with
    | '\'' :: _ => some (natOfDigits d1)
    | _ => none

/-- JS String.match for (\d+)': leftmost occurrence. -/
def searchFeet : List Char → Option ℕ
  | [] => none
  | c :: cs =>
    match matchFeetAt (c :: cs) with
    | some v => some v
    | none => searchFeet cs

/-- The exponent JS parseFloat reads after the significand: e or E, optional
sign, digits; an incomplete exponent part contributes factor 10^0, as the
engine backtracks to the significand alone. -/
def jsExponentAfterE (l : List Char) : ℤ :=
  match l with
  | '+' :: r =>
    let ds := r.takeWhile Char.isDigit
    if ds.isEmpty then 0 else (natOfDigits ds : ℤ)
  | '-' :: r =>
    let ds := r.takeWhile Char.isDigit
    if ds.isEmpty then 0 else -(natOfDigits ds : ℤ)
  | _ =>
    let ds := l.takeWhile Char.isDigit
    if ds.isEmpty then 0 else (natOfDigits ds : ℤ)

/-- The exponent factor position: nothing unless the next character is e/E. -/
def jsExponent (l : List Char) : ℤ :=
  match l with
  | 'e' :: r => jsExponentAfterE r
  | 'E' :: r => jsExponentAfterE r
  | _ => 0

/-- A non-NaN JS number as parseFeetInches can return it: a finite value
(exact rational; the engine's final rounding to a double is outside this
embedding) or one of the two infinities parseFloat's Infinity literal
produces. -/
inductive JsNumber where
  | finite (val : ℚ)
  | posInf
  | negInf
deriving DecidableEq, Repr

/-- JS unary minus on a non-NaN number, as parseFloat applies the parsed
sign. -/
def JsNumber.neg : JsNumber → JsNumber
  | .finite q => .finite (-q)
  | .posInf => .negInf
  | .negInf => .posInf

/-- The unsigned literal prefix JS parseFloat reads (ECMA
StrUnsignedDecimalLiteral): the Infinity literal, or integer digits with
optional fraction and exponent, at least one digit present. -/
def parseFloatUnsigned (l : List Char) : Option JsNumber :=
  if l.take 8 = "Infinity".data then some .posInf
  else
    let ip := l.takeWhile Char.isDigit
    let r1 := l.dropWhile Char.isDigit
    let fr : List Char × List Char :=
      match r1 with
      | '.' :: r => (r.takeWhile Char.isDigit, r.dropWhile Char.isDigit)
      | _ => ([], r1)
    if ip.isEmpty && fr.1.isEmpty then none
    else
      let mantissa : ℚ :=
        (natOfDigits ip : ℚ) + (natOfDigits fr.1 : ℚ) / (10 : ℚ) ^ fr.1.length
      some (.finite (mantissa * (10 : ℚ) ^ jsExponent fr.2))

/-- JS parseFloat: trim leading whitespace, optional sign, unsigned literal
prefix; none models NaN. -/
def jsParseFloat (l : List Char) : Option JsNumber :=
  let l1 := l.dropWhile isJsSpace
  match l1 with
  | '+' :: r => parseFloatUnsigned r
  | '-' :: r => (parseFloatUnsigned r).map JsNumber.neg
  | _ => parseFloatUnsigned l1

/-- src/utils.ts parseFeetInches: feet-inches regex first, then bare feet,
then parseFloat; null (none) exactly when all three fail, the parseFloat
branch passing through any non-NaN value including the infinities. -/
def parseFeetInches (s : String) : Option JsNumber :=
  match searchFI s.data with
  | some fi => some (.finite ((fi.1 : ℚ) + (fi.2 : ℚ) / 12))
  | none =>
    match searchFeet s.data with
    | some f => some (.finite (f : ℚ))
    | none => jsParseFloat s.data

/-- Spec-side format: the list is made of digits only (at least one). -/
def digitsOnly (l : List Char) : Prop :=
  l ≠ [] ∧ ∀ c ∈ l, c.isDigit = true

/-- Spec-side format: the string contains the feet-inches form F'I-quote
somewhere, with f and i the parseInt values of the digit runs. -/
def containsFI (l : List Char) (f i : ℕ) : Prop :=
  ∃ pre d1 ws d2 post, l = pre ++ d1 ++ '\'' :: (ws ++ d2 ++ '"' :: post) ∧
    digitsOnly d1 ∧ (∀ c ∈ ws, isJsSpace c = true) ∧ digitsOnly d2 ∧
    f = natOfDigits d1 ∧ i = natOfDigits d2

/-- Spec-side format: the string contains the bare-feet form F' somewhere. -/
def containsFeet (l : List Char) (f : ℕ) : Prop :=
  ∃ pre d1 post, l = pre ++ d1 ++ '\'' :: post ∧ digitsOnly d1 ∧ f = natOfDigits d1

lemma foldl_preserve {α β : Type _} (f : β → α → β) (P : β → Prop) :
    ∀ (l : List α) (b : β), P b → (∀ b a, P b → a ∈ l → P (f b a)) →
      P (l.foldl f b) := by
  intro l
  induction l with
  | nil =>
    intro b hb _
    exact hb
  | cons a t ih =>
    intro b hb hstep
    exact ih (f b a) (hstep b a hb (by simp))
      (fun b' a' hb' ha' => hstep b' a' hb' (by simp [ha']))

lemma getD_mem_of_lt {α : Type _} (l : List α) (i : ℕ) (d : α) (h : i < l.length) :
    l.getD i d ∈ l := by
  rw [List.getD_eq_getElem?_getD, List.getElem?_eq_getElem h, Option.getD_some]
  exact List.getElem_mem h

lemma close_int_eq (a b : ℚ) (ha : a.den = 1) (hb : b.den = 1)
    (h : |a - b| < 1/2) : b = a := by
  have ha' := Rat.coe_int_num_of_den_eq_one ha
  have hb' := Rat.coe_int_num_of_den_eq_one hb
  have hsub : a - b = ((a.num - b.num : ℤ) : ℚ) := by
    push_cast
    rw [ha', hb']
  rw [hsub] at h
  have hz : a.num - b.num = 0 := by
    by_contra hk
    have h1 : (1 : ℤ) ≤ |a.num - b.num| := Int.one_le_abs (by omega)
    have h2 : (1 : ℚ) ≤ |((a.num - b.num : ℤ) : ℚ)| := by
      rw [← Int.cast_abs]
      exact_mod_cast h1
    linarith
  have : a - b = 0 := by
    rw [hsub, hz]
    norm_num
  linarith [sub_eq_zero.mp this]

lemma snapToGrid_int (a : ℚ) (h : a.den = 1) : snapToGrid a = a := by
  unfold snapToGrid GRID_SIZE
  rw [div_one, mul_one]
  conv_lhs => rw [← Rat.coe_int_num_of_den_eq_one h]
  rw [round_intCast]
  exact Rat.coe_int_num_of_den_eq_one h


lemma wallSnap_id (points : List Point) (x y : ℚ) (hx : x.den = 1) (hy : y.den = 1)
    (hpts : ∀ p ∈ points, p.x.den = 1 ∧ p.y.den = 1) :
    wallSnap points x y (x, y) = (x, y) := by
  unfold wallSnap
  refine foldl_preserve _ (fun s => s = (x, y)) _ _ rfl ?_
  intro s i hs hi
  have hi' : i < points.length := List.mem_range.mp hi
  have hp1 := hpts (points.getD i default) (getD_mem_of_lt points i default hi')
  dsimp only
  split_ifs <;> subst hs <;> simp only [Prod.mk.injEq] <;>
    first
      | rfl
      | trivial
      | (refine ⟨?_, ?_⟩ <;>
          first
            | rfl
            | trivial
            | exact close_int_eq x _ hx hp1.1 (by linarith)
            | exact close_int_eq y _ hy hp1.2 (by linarith))


set_option maxHeartbeats 1000000 in
lemma objectSnap_id (lib : List ObjectDefinition) (objects : List PlacedObject)
    (x y : ℚ) (objId : Option String) (hx : x.den = 1) (hy : y.den = 1)
    (hobjs : ∀ other ∈ objects, ∀ dfn : ObjectDefinition,
      lib.find? (fun d => d.id == other.definitionId) = some dfn →
      (getObjectRect other dfn).x.den = 1 ∧
      ((getObjectRect other dfn).x + (getObjectRect other dfn).width).den = 1 ∧
      (getObjectRect other dfn).y.den = 1 ∧
      ((getObjectRect other dfn).y + (getObjectRect other dfn).height).den = 1) :
    objectSnap lib objects x y objId (x, y) = (x, y) := by
  unfold objectSnap
  refine foldl_preserve _ (fun s => s = (x, y)) _ _ rfl ?_
  intro s other hs ho
  dsimp only
  split_ifs with hskip
  · exact hs
  · cases hfind : lib.find? (fun d => d.id == other.definitionId) with
    | none => exact hs
    | some dfn =>
      obtain ⟨e1, e2, e3, e4⟩ := hobjs other ho dfn hfind
      subst hs
      simp only [List.foldl_cons, List.foldl_nil]
      split_ifs <;> simp only [Prod.mk.injEq] <;>
        first
          | rfl
          | trivial
          | (refine ⟨?_, ?_⟩ <;>
              first
                | rfl
                | trivial
                | exact close_int_eq x _ hx e1 (by linarith)
                | exact close_int_eq x _ hx e2 (by linarith)
                | exact close_int_eq y _ hy e3 (by linarith)
                | exact close_int_eq y _ hy e4 (by linarith))


/-- C2 (amended): when the raw point is grid-aligned (integer coordinates)
and every boundary vertex coordinate and every resolvable object's footprint
edge coordinate is also grid-aligned, findSnapTarget returns the point
unchanged; with no active room it is unconditionally the identity on
grid-aligned points. -/
theorem C2_snap_identity_on_aligned_features :
    ∀ (room : Room) (lib : List ObjectDefinition) (x y : ℚ) (objId : Option String),
      x.den = 1 → y.den = 1 →
      (∀ p ∈ room.points, p.x.den = 1 ∧ p.y.den = 1) →
      (∀ other ∈ room.objects, ∀ dfn : ObjectDefinition,
        lib.find? (fun d => d.id == other.definitionId) = some dfn →
        (getObjectRect other dfn).x.den = 1 ∧
        ((getObjectRect other dfn).x + (getObjectRect other dfn).width).den = 1 ∧
        (getObjectRect other dfn).y.den = 1 ∧
        ((getObjectRect other dfn).y + (getObjectRect other dfn).height).den = 1) →
      findSnapTarget (some room) lib x y objId = ⟨x, y⟩ ∧
      findSnapTarget none lib x y objId = ⟨x, y⟩ := by
  intro room lib x y objId hx hy hpts hobjs
  have hsx := snapToGrid_int x hx
  have hsy := snapToGrid_int y hy
  constructor
  · show (⟨(objectSnap lib room.objects x y objId
        (wallSnap room.points x y (snapToGrid x, snapToGrid y))).1,
      (objectSnap lib room.objects x y objId
        (wallSnap room.points x y (snapToGrid x, snapToGrid y))).2⟩ : Point) = ⟨x, y⟩
    rw [hsx, hsy, wallSnap_id room.points x y hx hy hpts,
      objectSnap_id lib room.objects x y objId hx hy hobjs]
  · show (⟨snapToGrid x, snapToGrid y⟩ : Point) = ⟨x, y⟩
    rw [hsx, hsy]

/-- C2 counterexample: a room whose boundary holds a vertical edge at the
non-grid x = 3/10 pulls the already grid-aligned point (0, 0) to (3/10, 0),
so re-snapping a grid-aligned point is not the identity in general. -/
theorem C2_counterexample :
    findSnapTarget (some ⟨"r", "room", [⟨3/10, 0⟩, ⟨3/10, 2⟩], [], [], none⟩)
        [] 0 0 none = ⟨3/10, 0⟩ ∧ ((3 : ℚ)/10 ≠ 0) := by
  constructor
  · show (⟨(objectSnap [] [] 0 0 none
        (wallSnap [⟨3/10, 0⟩, ⟨3/10, 2⟩] 0 0 (snapToGrid 0, snapToGrid 0))).1,
      (objectSnap [] [] 0 0 none
        (wallSnap [⟨3/10, 0⟩, ⟨3/10, 2⟩] 0 0 (snapToGrid 0, snapToGrid 0))).2⟩ : Point) =
      ⟨3/10, 0⟩
    rw [snapToGrid_int 0 rfl]
    unfold wallSnap objectSnap
    norm_num [List.range_succ]
    rw [show |(3 : ℚ)/10| = 3/10 from abs_of_pos (by norm_num)]
    norm_num
  · norm_num


theorem C2_witness :
    findSnapTarget
        (some ⟨"r", "room", [⟨0, 0⟩, ⟨4, 0⟩, ⟨4, 3⟩, ⟨0, 3⟩], [], [], none⟩)
        [] 2 1 none = ⟨2, 1⟩ :=
  (C2_snap_identity_on_aligned_features
    ⟨"r", "room", [⟨0, 0⟩, ⟨4, 0⟩, ⟨4, 3⟩, ⟨0, 3⟩], [], [], none⟩ [] 2 1 none
    rfl rfl
    (by intro p hp; fin_cases hp <;> exact ⟨rfl, rfl⟩)
    (by intro other ho; exact absurd ho (List.not_mem_nil other))).1

lemma checkRectOverlap_iff (r1 r2 : Rect) :
    checkRectOverlap r1 r2 = true ↔
      (r2.x < r1.x + r1.width ∧ r1.x < r2.x + r2.width ∧
       r2.y < r1.y + r1.height ∧ r1.y < r2.y + r2.height) := by
  simp only [checkRectOverlap, Bool.not_eq_true', Bool.or_eq_false_iff,
    decide_eq_false_iff_not, not_le, ge_iff_le]
  tauto

/-- C6: checkRectOverlap holds exactly when each axis interval strictly
overlaps (strict inequality at boundaries); for rectangles with positive
extents this says the intersection has positive area; the spec's two example
pairs behave as stated. -/
theorem C6_rect_overlap_strict_boundaries :
    (∀ r1 r2 : Rect,
      (checkRectOverlap r1 r2 = true ↔
        (r2.x < r1.x + r1.width ∧ r1.x < r2.x + r2.width ∧
         r2.y < r1.y + r1.height ∧ r1.y < r2.y + r2.height)) ∧
      (0 < r1.width → 0 < r1.height → 0 < r2.width → 0 < r2.height →
        (checkRectOverlap r1 r2 = true ↔
          (max r1.x r2.x < min (r1.x + r1.width) (r2.x + r2.width) ∧
           max r1.y r2.y < min (r1.y + r1.height) (r2.y + r2.height))))) ∧
    checkRectOverlap ⟨0, 0, 1, 1⟩ ⟨1, 0, 1, 1⟩ = false ∧
    checkRectOverlap ⟨0, 0, 2, 2⟩ ⟨1, 1, 2, 2⟩ = true := by
  refine ⟨fun r1 r2 => ⟨checkRectOverlap_iff r1 r2, ?_⟩,
    by simp [checkRectOverlap], by simp [checkRectOverlap]; norm_num⟩
  intro hw1 hh1 hw2 hh2
  rw [checkRectOverlap_iff]
  simp only [max_lt_iff, lt_min_iff]
  constructor
  · rintro ⟨h1, h2, h3, h4⟩
    and_intros <;> linarith
  · rintro ⟨⟨⟨a1, a2⟩, a3, a4⟩, ⟨b1, b2⟩, b3, b4⟩
    and_intros <;> linarith

/-- C10: checkRectOverlap is symmetric in its two rectangles. -/
theorem C10_rect_overlap_symm :
    ∀ r1 r2 : Rect, checkRectOverlap r1 r2 = checkRectOverlap r2 r1 := by
  intro r1 r2
  rw [Bool.eq_iff_iff, checkRectOverlap_iff, checkRectOverlap_iff]
  tauto

/-- C3: isValidPlacement reads only the room's objects and tempWalls; two
rooms agreeing there get the same verdict whatever their boundary polygons
(containment is not enforced). -/
theorem C3_placement_ignores_boundary :
    ∀ (lib : List ObjectDefinition) (obj : PlacedObject) (ex : Option String)
      (r1 r2 : Room), r1.objects = r2.objects → r1.tempWalls = r2.tempWalls →
      isValidPlacement lib obj r1 ex = isValidPlacement lib obj r2 ex := by
  intro lib obj ex r1 r2 h1 h2
  unfold isValidPlacement
  rw [h1, h2]

theorem C3_witness :
    isValidPlacement [] ⟨"o", "d", 0, 0, 0⟩
        ⟨"a", "r1", [⟨0, 0⟩, ⟨5, 0⟩, ⟨5, 5⟩], [], [], none⟩ none =
      isValidPlacement [] ⟨"o", "d", 0, 0, 0⟩ ⟨"b", "r2", [], [], [], none⟩ none :=
  C3_placement_ignores_boundary [] ⟨"o", "d", 0, 0, 0⟩ none
    ⟨"a", "r1", [⟨0, 0⟩, ⟨5, 0⟩, ⟨5, 5⟩], [], [], none⟩
    ⟨"b", "r2", [], [], [], none⟩ rfl rfl

/-- C8: an unresolved candidate definitionId makes the placement invalid, and
a room object whose own definitionId is unresolved is skipped: deleting it
from the room's object list leaves the verdict unchanged. -/
theorem C8_dangling_definition_ids :
    ∀ (lib : List ObjectDefinition) (obj : PlacedObject) (room : Room)
      (ex : Option String),
      (lib.find? (fun d => d.id == obj.definitionId) = none →
        isValidPlacement lib obj room ex = false) ∧
      (∀ (o : PlacedObject) (pre post : List PlacedObject),
        lib.find? (fun d => d.id == o.definitionId) = none →
        room.objects = pre ++ o :: post →
        isValidPlacement lib obj room ex =
          isValidPlacement lib obj { room with objects := pre ++ post } ex) := by
  intro lib obj room ex
  constructor
  · intro h
    unfold isValidPlacement
    rw [h]
  · intro o pre post ho hobjs
    unfold isValidPlacement
    cases hfind : lib.find? (fun d => d.id == obj.definitionId) with
    | none => rfl
    | some defn =>
      simp only [hobjs, List.all_append, List.all_cons, ho]
      split <;> simp

theorem C8_witness :
    isValidPlacement [] ⟨"o", "missing", 0, 0, 0⟩ ⟨"r", "room", [], [], [], none⟩
        none = false ∧
    isValidPlacement [⟨"d", "table", 2, 2, none⟩] ⟨"o", "d", 0, 0, 0⟩
        ⟨"r", "room", [], [⟨"g", "ghost", 0, 0, 0⟩], [], none⟩ none =
      isValidPlacement [⟨"d", "table", 2, 2, none⟩] ⟨"o", "d", 0, 0, 0⟩
        { Room.mk "r" "room" [] [⟨"g", "ghost", 0, 0, 0⟩] [] none with
          objects := [] ++ [] } none :=
  ⟨(C8_dangling_definition_ids [] ⟨"o", "missing", 0, 0, 0⟩
      ⟨"r", "room", [], [], [], none⟩ none).1 rfl,
   (C8_dangling_definition_ids [⟨"d", "table", 2, 2, none⟩] ⟨"o", "d", 0, 0, 0⟩
      ⟨"r", "room", [], [⟨"g", "ghost", 0, 0, 0⟩], [], none⟩ none).2
     ⟨"g", "ghost", 0, 0, 0⟩ [] [] (by decide) rfl⟩

/-- C4: polygons with fewer than 3 points give area 0 and contain no point. -/
theorem C4_degenerate_polygons :
    ∀ ps : List Point, ps.length < 3 →
      calculatePolygonArea ps = 0 ∧ ∀ p : Point, isPointInPolygon p ps = false := by
  intro ps h
  rcases ps with _ | ⟨a, _ | ⟨b, _ | ⟨c, t⟩⟩⟩
  · exact ⟨by simp [calculatePolygonArea], fun p => rfl⟩
  · constructor
    · simp [calculatePolygonArea, List.range_succ]
    · intro p
      simp [isPointInPolygon, List.range_succ]
  · constructor
    · simp [calculatePolygonArea, List.range_succ]
    · intro p
      unfold isPointInPolygon
      rw [show List.range (List.length [a, b]) = [0, 1] from rfl]
      simp only [List.foldl_cons, List.foldl_nil]
      norm_num
      by_cases h1 : a.y > p.y <;> by_cases h2 : b.y > p.y
      · simp [h1, h2]
      · simp only [h1, h2]
        have hba : b.y < a.y := by
          push_neg at h2
          linarith
        have key : (b.x - a.x) * (p.y - a.y) / (b.y - a.y) + a.x =
            (a.x - b.x) * (p.y - b.y) / (a.y - b.y) + b.x := by
          have hne : b.y - a.y ≠ 0 := sub_ne_zero_of_ne hba.ne
          have hne' : a.y - b.y ≠ 0 := sub_ne_zero_of_ne hba.ne'
          field_simp
          ring
        rw [key]
        by_cases hp : p.x < (a.x - b.x) * (p.y - b.y) / (a.y - b.y) + b.x <;>
          simp [hp, le_of_not_lt]
      · simp only [h1, h2]
        have hba : a.y < b.y := by
          push_neg at h1
          linarith
        have key : (b.x - a.x) * (p.y - a.y) / (b.y - a.y) + a.x =
            (a.x - b.x) * (p.y - b.y) / (a.y - b.y) + b.x := by
          have hne : b.y - a.y ≠ 0 := sub_ne_zero_of_ne hba.ne'
          have hne' : a.y - b.y ≠ 0 := sub_ne_zero_of_ne hba.ne
          field_simp
          ring
        rw [key]
        by_cases hp : p.x < (a.x - b.x) * (p.y - b.y) / (a.y - b.y) + b.x <;>
          simp [hp, le_of_not_lt]
      · simp [h1, h2]
  · simp at h
    omega

lemma addToHistory_history (s : HistState) (r : List Room) :
    (addToHistory s r).history =
      if 50 < (s.history.take (s.historyIndex + 1).toNat ++ [r]).length then
        (s.history.take (s.historyIndex + 1).toNat ++ [r]).tail
      else s.history.take (s.historyIndex + 1).toNat ++ [r] := rfl

lemma addToHistory_index (s : HistState) (r : List Room) :
    (addToHistory s r).historyIndex =
      if 49 < s.historyIndex + 1 then 49 else s.historyIndex + 1 := rfl

/-- C9: every reachable history state holds at most 50 snapshots and its
cursor is inside [0, length - 1]; the only exception is the initial empty
buffer, whose cursor is the -1 sentinel and whose range [0, -1] is empty. -/
theorem C9_history_bounded :
    ∀ s : HistState, ReachableHist s →
      s.history.length ≤ 50 ∧
      ((s.history = [] ∧ s.historyIndex = -1) ∨
       (0 ≤ s.historyIndex ∧ s.historyIndex ≤ (s.history.length : ℤ) - 1)) := by
  intro s h
  induction h with
  | init => simp [initHist]
  | push s rooms hs ih =>
    obtain ⟨hlen, hidx⟩ := ih
    rw [addToHistory_history, addToHistory_index]
    split_ifs with hc hd hd
    all_goals
      refine ⟨?_, Or.inr ⟨?_, ?_⟩⟩ <;>
        simp only [List.length_tail, List.length_append, List.length_take,
          List.length_cons, List.length_nil] at hc ⊢ <;>
        rcases hidx with ⟨h1, h2⟩ | ⟨h1, h2⟩ <;>
        simp_all <;>
        omega
  | undo s hs ih =>
    obtain ⟨hlen, hidx⟩ := ih
    unfold histUndo
    split_ifs with hc
    · dsimp only
      rcases hidx with ⟨h1, h2⟩ | ⟨h1, h2⟩
      · exact absurd hc (by omega)
      · exact ⟨hlen, Or.inr ⟨by omega, by omega⟩⟩
    · exact ⟨hlen, hidx⟩
  | redo s hs ih =>
    obtain ⟨hlen, hidx⟩ := ih
    unfold histRedo
    split_ifs with hc
    · dsimp only
      rcases hidx with ⟨h1, h2⟩ | ⟨h1, h2⟩
      · simp [h1] at hc
        exact ⟨hlen, Or.inr ⟨by omega, by omega⟩⟩
      · exact ⟨hlen, Or.inr ⟨by omega, by omega⟩⟩
    · exact ⟨hlen, hidx⟩

theorem C9_witness :
    (addToHistory initHist []).history.length ≤ 50 ∧
    (((addToHistory initHist []).history = [] ∧
      (addToHistory initHist []).historyIndex = -1) ∨
     (0 ≤ (addToHistory initHist []).historyIndex ∧
      (addToHistory initHist []).historyIndex ≤
        ((addToHistory initHist []).history.length : ℤ) - 1)) :=
  C9_history_bounded (addToHistory initHist [])
    (ReachableHist.push initHist [] ReachableHist.init)

theorem C4_witness :
    calculatePolygonArea [⟨0, 0⟩, ⟨1, 1⟩] = 0 ∧
    isPointInPolygon ⟨5, 5⟩ [⟨0, 0⟩, ⟨1, 1⟩] = false :=
  ⟨(C4_degenerate_polygons [⟨0, 0⟩, ⟨1, 1⟩] (by decide)).1,
   (C4_degenerate_polygons [⟨0, 0⟩, ⟨1, 1⟩] (by decide)).2 ⟨5, 5⟩⟩

lemma takeWhile_app (p : Char → Bool) (l : List Char) (c : Char) (r : List Char)
    (hl : ∀ a ∈ l, p a = true) (hc : p c = false) :
    (l ++ c :: r).takeWhile p = l ∧ (l ++ c :: r).dropWhile p = c :: r := by
  induction l with
  | nil =>
    simp [List.takeWhile_cons, List.dropWhile_cons, hc]
  | cons a t ih =>
    have ha : p a = true := hl a (by simp)
    have iht := ih (fun b hb => hl b (by simp [hb]))
    simp [List.takeWhile_cons, List.dropWhile_cons, ha, iht.1, iht.2]

lemma isDigit_not_space (c : Char) (h : c.isDigit = true) : isJsSpace c = false := by
  simp only [isJsSpace, Bool.or_eq_false_iff, decide_eq_false_iff_not]
  and_intros <;> (rintro rfl; exact absurd h (by decide))

lemma matchFIAt_of_layout (d1 ws d2 post : List Char)
    (hd1 : digitsOnly d1) (hws : ∀ c ∈ ws, isJsSpace c = true) (hd2 : digitsOnly d2) :
    matchFIAt (d1 ++ '\'' :: (ws ++ d2 ++ '"' :: post)) =
      some (natOfDigits d1, natOfDigits d2) := by
  obtain ⟨hne1, hall1⟩ := hd1
  obtain ⟨hne2, hall2⟩ := hd2
  have h1 := takeWhile_app Char.isDigit d1 '\'' (ws ++ d2 ++ '"' :: post) hall1 (by decide)
  obtain ⟨e, d2t, rfl⟩ : ∃ e d2t, d2 = e :: d2t := by
    cases d2 with
    | nil => exact absurd rfl hne2
    | cons e t => exact ⟨e, t, rfl⟩
  have hsp : isJsSpace e = false := isDigit_not_space e (hall2 e (by simp))
  have h2 := takeWhile_app isJsSpace ws e (d2t ++ '"' :: post) hws hsp
  have h3 := takeWhile_app Char.isDigit (e :: d2t) '"' post
    (fun a ha => hall2 a ha) (by decide)
  have hemp1 : d1.isEmpty = false := by simp [List.isEmpty_iff, hne1]
  have h1t : (d1 ++ '\'' :: (ws ++ e :: (d2t ++ '"' :: post))).takeWhile Char.isDigit
      = d1 := by simpa [List.append_assoc] using h1.1
  have h1d : (d1 ++ '\'' :: (ws ++ e :: (d2t ++ '"' :: post))).dropWhile Char.isDigit
      = '\'' :: (ws ++ e :: (d2t ++ '"' :: post)) := by
    simpa [List.append_assoc] using h1.2
  have hws2 : (ws ++ e :: (d2t ++ '"' :: post)).dropWhile isJsSpace =
      e :: (d2t ++ '"' :: post) := by simpa [List.append_assoc] using h2.2
  have h3t : (e :: (d2t ++ '"' :: post)).takeWhile Char.isDigit = e :: d2t := by
    simpa using h3.1
  have h3d : (e :: (d2t ++ '"' :: post)).dropWhile Char.isDigit = '"' :: post := by
    simpa using h3.2
  unfold matchFIAt
  simp only [List.append_assoc, List.cons_append, h1t, h1d, hemp1,
    Bool.false_eq_true, if_false, hws2, h3t, h3d, List.isEmpty_cons]


lemma searchFI_of_containsFI (l : List Char) (f i : ℕ) (h : containsFI l f i) :
    ∃ fv iv, searchFI l = some (fv, iv) := by
  obtain ⟨pre, d1, ws, d2, post, heq, hd1, hws, hd2, hf, hi⟩ := h
  subst heq
  clear hf hi
  induction pre with
  | nil =>
    obtain ⟨a, d1t, rfl⟩ : ∃ a d1t, d1 = a :: d1t := by
      cases d1 with
      | nil => exact absurd rfl hd1.1
      | cons a t => exact ⟨a, t, rfl⟩
    refine ⟨natOfDigits (a :: d1t), natOfDigits d2, ?_⟩
    have hm := matchFIAt_of_layout (a :: d1t) ws d2 post hd1 hws hd2
    simp only [List.nil_append, List.cons_append] at hm ⊢
    unfold searchFI
    rw [show (a :: (d1t ++ '\'' :: (ws ++ d2 ++ '"' :: post))) =
        ((a :: d1t) ++ '\'' :: (ws ++ d2 ++ '"' :: post)) from rfl] at *
    rw [hm]
  | cons c pre' ih =>
    simp only [List.cons_append]
    unfold searchFI
    cases hm : matchFIAt (c :: (pre' ++ d1 ++ '\'' :: (ws ++ d2 ++ '"' :: post))) with
    | some v =>
      exact ⟨v.1, v.2, rfl⟩
    | none =>
      exact ih


lemma containsFI_of_matchFIAt (l : List Char) (f i : ℕ)
    (h : matchFIAt l = some (f, i)) : containsFI l f i := by
  unfold matchFIAt at h
  dsimp only at h
  split at h
  · exact absurd h (by simp)
  · rename_i hemp1
    split at h
    · rename_i r2 hr2
      split at h
      · exact absurd h (by simp)
      · rename_i hemp2
        split at h
        · rename_i tail htail
          injection h with h'
          injection h' with hf hi
          refine ⟨[], l.takeWhile Char.isDigit, r2.takeWhile isJsSpace,
            (r2.dropWhile isJsSpace).takeWhile Char.isDigit, tail, ?_, ?_, ?_, ?_,
            hf.symm, hi.symm⟩
          · have e1 : l.takeWhile Char.isDigit ++ l.dropWhile Char.isDigit = l := by
              rw [List.takeWhile_append_dropWhile]
            have e2 : r2.takeWhile isJsSpace ++ r2.dropWhile isJsSpace = r2 := by
              rw [List.takeWhile_append_dropWhile]
            have e3 : (r2.dropWhile isJsSpace).takeWhile Char.isDigit ++
                (r2.dropWhile isJsSpace).dropWhile Char.isDigit =
                r2.dropWhile isJsSpace := by
              rw [List.takeWhile_append_dropWhile]
            rw [List.nil_append]
            conv_lhs => rw [← e1]
            rw [hr2]
            simp only [List.append_assoc, List.cons_append]
            congr 2
            conv_lhs => rw [← e2]
            congr 1
            conv_lhs => rw [← e3]
            rw [htail]
          · constructor
            · intro hc
              simp [hc] at hemp1
            · intro c hc
              exact List.mem_takeWhile_imp hc
          · intro c hc
            exact List.mem_takeWhile_imp hc
          · constructor
            · intro hc
              simp [hc] at hemp2
            · intro c hc
              exact List.mem_takeWhile_imp hc
        · exact absurd h (by simp)
    · exact absurd h (by simp)


lemma containsFI_cons (c : Char) (cs : List Char) (f i : ℕ)
    (h : containsFI cs f i) : containsFI (c :: cs) f i := by
  obtain ⟨pre, d1, ws, d2, post, heq, hd1, hws, hd2, hf, hi⟩ := h
  exact ⟨c :: pre, d1, ws, d2, post, by simp [heq], hd1, hws, hd2, hf, hi⟩

lemma containsFI_of_searchFI (l : List Char) (f i : ℕ)
    (h : searchFI l = some (f, i)) : containsFI l f i := by
  induction l with
  | nil => exact absurd h (by simp [searchFI])
  | cons c cs ih =>
    unfold searchFI at h
    cases hm : matchFIAt (c :: cs) with
    | some v =>
      rw [hm] at h
      injection h with h'
      subst h'
      exact containsFI_of_matchFIAt (c :: cs) _ _ hm
    | none =>
      rw [hm] at h
      exact containsFI_cons c cs f i (ih h)

lemma matchFeetAt_of_layout (d1 post : List Char) (hd1 : digitsOnly d1) :
    matchFeetAt (d1 ++ '\'' :: post) = some (natOfDigits d1) := by
  obtain ⟨hne1, hall1⟩ := hd1
  have h1 := takeWhile_app Char.isDigit d1 '\'' post hall1 (by decide)
  have hemp1 : d1.isEmpty = false := by simp [List.isEmpty_iff, hne1]
  unfold matchFeetAt
  simp only [h1.1, h1.2, hemp1, Bool.false_eq_true, if_false]

lemma searchFeet_of_containsFeet (l : List Char) (f : ℕ) (h : containsFeet l f) :
    ∃ fv, searchFeet l = some fv := by
  obtain ⟨pre, d1, post, heq, hd1, hf⟩ := h
  subst heq
  clear hf
  induction pre with
  | nil =>
    obtain ⟨a, d1t, rfl⟩ : ∃ a d1t, d1 = a :: d1t := by
      cases d1 with
      | nil => exact absurd rfl hd1.1
      | cons a t => exact ⟨a, t, rfl⟩
    refine ⟨natOfDigits (a :: d1t), ?_⟩
    have hm := matchFeetAt_of_layout (a :: d1t) post hd1
    simp only [List.nil_append, List.cons_append] at hm ⊢
    unfold searchFeet
    rw [show (a :: (d1t ++ '\'' :: post)) = ((a :: d1t) ++ '\'' :: post) from rfl] at *
    rw [hm]
  | cons c pre' ih =>
    simp only [List.cons_append]
    unfold searchFeet
    cases hm : matchFeetAt (c :: (pre' ++ d1 ++ '\'' :: post)) with
    | some v => exact ⟨v, rfl⟩
    | none => exact ih

lemma containsFeet_of_matchFeetAt (l : List Char) (f : ℕ)
    (h : matchFeetAt l = some f) : containsFeet l f := by
  unfold matchFeetAt at h
  dsimp only at h
  split at h
  · exact absurd h (by simp)
  · rename_i hemp1
    split at h
    · rename_i post hpost
      injection h with hf
      refine ⟨[], l.takeWhile Char.isDigit, post, ?_, ?_, hf.symm⟩
      · have e1 : l.takeWhile Char.isDigit ++ l.dropWhile Char.isDigit = l := by
          rw [List.takeWhile_append_dropWhile]
        rw [List.nil_append]
        conv_lhs => rw [← e1]
        rw [hpost]
      · constructor
        · intro hc
          simp [hc] at hemp1
        · intro c hc
          exact List.mem_takeWhile_imp hc
    · exact absurd h (by simp)

lemma containsFeet_cons (c : Char) (cs : List Char) (f : ℕ)
    (h : containsFeet cs f) : containsFeet (c :: cs) f := by
  obtain ⟨pre, d1, post, heq, hd1, hf⟩ := h
  exact ⟨c :: pre, d1, post, by simp [heq], hd1, hf⟩

lemma containsFeet_of_searchFeet (l : List Char) (f : ℕ)
    (h : searchFeet l = some f) : containsFeet l f := by
  induction l with
  | nil => exact absurd h (by simp [searchFeet])
  | cons c cs ih =>
    unfold searchFeet at h
    cases hm : matchFeetAt (c :: cs) with
    | some v =>
      rw [hm] at h
      injection h with h'
      subst h'
      exact containsFeet_of_matchFeetAt (c :: cs) _ hm
    | none =>
      rw [hm] at h
      exact containsFeet_cons c cs f (ih h)


/-- C7 (amended): parseFeetInches returns the finite feet-inches value
F + I/12 whenever the string contains the F-apostrophe-I-quote form, a finite
whole-feet value when it contains only the bare-feet form, the parseFloat
prefix value otherwise, and null exactly when all three formats are absent
and parseFloat also fails (is NaN) — in particular a leading Infinity
literal, which matches none of the three formats, still yields a non-null
infinite value through the parseFloat branch. -/
theorem C7_parseFeetInches_formats :
    ∀ s : String,
      ((∃ f i, containsFI s.data f i) →
        ∃ f i, containsFI s.data f i ∧
          parseFeetInches s = some (JsNumber.finite ((f : ℚ) + (i : ℚ) / 12))) ∧
      (¬(∃ f i, containsFI s.data f i) → (∃ f, containsFeet s.data f) →
        ∃ f, containsFeet s.data f ∧
          parseFeetInches s = some (JsNumber.finite (f : ℚ))) ∧
      (¬(∃ f i, containsFI s.data f i) → ¬(∃ f, containsFeet s.data f) →
        parseFeetInches s = jsParseFloat s.data) ∧
      (parseFeetInches s = none ↔
        (¬∃ f i, containsFI s.data f i) ∧ (¬∃ f, containsFeet s.data f) ∧
          jsParseFloat s.data = none) := by
  intro s
  cases hfi : searchFI s.data with
  | some v =>
    have hc : containsFI s.data v.1 v.2 := containsFI_of_searchFI s.data v.1 v.2 hfi
    have hparse : parseFeetInches s =
        some (JsNumber.finite ((v.1 : ℚ) + (v.2 : ℚ) / 12)) := by
      unfold parseFeetInches
      rw [hfi]
    refine ⟨fun _ => ⟨v.1, v.2, hc, hparse⟩,
      fun hno _ => absurd ⟨v.1, v.2, hc⟩ hno,
      fun hno _ => absurd ⟨v.1, v.2, hc⟩ hno, ?_⟩
    rw [hparse]
    constructor
    · intro h
      cases h
    · rintro ⟨hno, _, _⟩
      exact absurd ⟨v.1, v.2, hc⟩ hno
  | none =>
    have hnoFI : ¬∃ f i, containsFI s.data f i := by
      rintro ⟨f, i, hcon⟩
      obtain ⟨fv, iv, hv⟩ := searchFI_of_containsFI s.data f i hcon
      rw [hfi] at hv
      cases hv
    cases hft : searchFeet s.data with
    | some w =>
      have hcw : containsFeet s.data w := containsFeet_of_searchFeet s.data w hft
      have hparse : parseFeetInches s = some (JsNumber.finite (w : ℚ)) := by
        unfold parseFeetInches
        rw [hfi, hft]
      refine ⟨fun hsome => absurd hsome hnoFI,
        fun _ _ => ⟨w, hcw, hparse⟩,
        fun _ hnof => absurd ⟨w, hcw⟩ hnof, ?_⟩
      rw [hparse]
      constructor
      · intro h
        cases h
      · rintro ⟨_, hnof, _⟩
        exact absurd ⟨w, hcw⟩ hnof
    | none =>
      have hnoFt : ¬∃ f, containsFeet s.data f := by
        rintro ⟨f, hcon⟩
        obtain ⟨fv, hv⟩ := searchFeet_of_containsFeet s.data f hcon
        rw [hft] at hv
        cases hv
      have hparse : parseFeetInches s = jsParseFloat s.data := by
        unfold parseFeetInches
        rw [hfi, hft]
      refine ⟨fun hsome => absurd hsome hnoFI,
        fun _ hsome => absurd hsome hnoFt,
        fun _ _ => hparse, ?_⟩
      rw [hparse]
      exact ⟨fun h => ⟨hnoFI, hnoFt, h⟩, fun ⟨_, _, h⟩ => h⟩


theorem C7_witness :
    ∃ f i, containsFI "4'6\"".data f i ∧
      parseFeetInches "4'6\"" = some (JsNumber.finite ((f : ℚ) + (i : ℚ) / 12)) :=
  (C7_parseFeetInches_formats "4'6\"").1
    ⟨4, 6, [], ['4'], [], ['6'], [], by decide,
      ⟨by simp, by intro c hc; simp at hc; subst hc; decide⟩, by simp,
      ⟨by simp, by intro c hc; simp at hc; subst hc; decide⟩,
      by decide, by decide⟩

/-- C7 counterexample: the input Infinity contains neither the feet-inches
form nor the bare-feet form, and parseFloat reads no finite decimal from it,
yet parseFeetInches returns the non-null value Infinity through the
parseFloat branch: null is not returned exactly when the three formats are
absent. -/
theorem C7_counterexample :
    (¬∃ f i, containsFI "Infinity".data f i) ∧
    (¬∃ f, containsFeet "Infinity".data f) ∧
    (∀ q : ℚ, jsParseFloat "Infinity".data ≠ some (JsNumber.finite q)) ∧
    parseFeetInches "Infinity" ≠ none ∧
    parseFeetInches "Infinity" = some JsNumber.posInf := by
  have hfi : searchFI "Infinity".data = none := by decide
  have hft : searchFeet "Infinity".data = none := by decide
  have hinf : jsParseFloat "Infinity".data = some JsNumber.posInf := by decide
  have hparse : parseFeetInches "Infinity" = some JsNumber.posInf := by
    unfold parseFeetInches
    rw [hfi, hft, hinf]
  refine ⟨?_, ?_, ?_, ?_, hparse⟩
  · rintro ⟨f, i, hcon⟩
    obtain ⟨fv, iv, hv⟩ := searchFI_of_containsFI "Infinity".data f i hcon
    rw [hfi] at hv
    cases hv
  · rintro ⟨f, hcon⟩
    obtain ⟨fv, hv⟩ := searchFeet_of_containsFeet "Infinity".data f hcon
    rw [hft] at hv
    cases hv
  · intro q h
    rw [hinf] at h
    simp at h
  · rw [hparse]
    simp

@[simp] lemma orientation_beq_HH : (Orientation.H == Orientation.H) = true := by decide

@[simp] lemma orientation_beq_HV : (Orientation.H == Orientation.V) = false := by decide

@[simp] lemma orientation_beq_VH : (Orientation.V == Orientation.H) = false := by decide

@[simp] lemma orientation_beq_VV : (Orientation.V == Orientation.V) = true := by decide

@[ext] lemma Point.ext {p q : Point} (hx : p.x = q.x) (hy : p.y = q.y) : p = q := by
  cases p
  cases q
  cases hx
  cases hy
  rfl

lemma signedLens_length (i : ℕ) (segs : List Segment) :
    (signedLens i segs).length = segs.length := by
  simp [signedLens]

lemma solveDirections_length (segs : List Segment) :
    (solveDirections segs).length = segs.length := by
  unfold solveDirections
  split_ifs
  · simp
  · cases h : (List.range (2 ^ segs.length)).find?
        (fun i => decide (|signedSum i segs| < 1/100)) with
    | some i => simp [signedLens_length]
    | none => simp

lemma solveDirections_of_fails (segs : List Segment) (h : solverFails segs) :
    solveDirections segs = segs.map (·.length) := by
  unfold solveDirections
  rcases h with h | h
  · rw [if_pos h]
  · by_cases h12 : 12 < segs.length
    · rw [if_pos h12]
    · rw [if_neg h12]
      have hnone : (List.range (2 ^ segs.length)).find?
          (fun i => decide (|signedSum i segs| < 1/100)) = none := by
        rw [List.find?_eq_none]
        intro i hi
        simp only [decide_eq_true_eq]
        exact h i (List.mem_range.mp hi)
      rw [hnone]


lemma getLastD_congr {α : Type _} (l : List α) (d1 d2 : α) (h : l ≠ []) :
    l.getLastD d1 = l.getLastD d2 := by
  cases l with
  | nil => exact absurd rfl h
  | cons a t => rw [List.getLastD_cons, List.getLastD_cons]

lemma getLastD_map {α β : Type _} (f : α → β) (l : List α) (d : α) :
    (l.map f).getLastD (f d) = f (l.getLastD d) := by
  induction l generalizing d with
  | nil => rfl
  | cons a t ih =>
    rw [List.map_cons, List.getLastD_cons, List.getLastD_cons]
    exact ih a

lemma buildPath_getLastD (segs : List Segment) :
    ∀ (hs vs : List ℚ) (cur d : Point),
      hs.length = (segs.filter (fun s => s.orientation == Orientation.H)).length →
      vs.length = (segs.filter (fun s => s.orientation == Orientation.V)).length →
      (cur :: buildPath segs hs vs cur).getLastD d =
        ⟨cur.x + hs.sum, cur.y + vs.sum⟩ := by
  induction segs with
  | nil =>
    intro hs vs cur d hh hv
    simp only [List.filter_nil, List.length_nil, List.length_eq_zero] at hh hv
    subst hh
    subst hv
    show cur = _
    ext <;> simp [buildPath]
  | cons seg rest ih =>
    intro hs vs cur d hh hv
    cases horient : seg.orientation with
    | H =>
      simp only [List.filter_cons, horient, orientation_beq_HH, orientation_beq_HV,
        if_true, if_false, List.length_cons] at hh hv
      obtain ⟨h0, hs', rfl⟩ : ∃ h0 hs', hs = h0 :: hs' := by
        cases hs with
        | nil => simp at hh
        | cons a t => exact ⟨a, t, rfl⟩
      unfold buildPath
      rw [horient]
      simp only [List.headD_cons, List.tail_cons, List.getLastD_cons]
      have := ih hs' vs ⟨cur.x + h0, cur.y⟩ cur (by simpa using hh) hv
      rw [List.getLastD_cons] at this
      rw [this]
      ext <;> simp <;> ring
    | V =>
      simp only [List.filter_cons, horient, orientation_beq_VH, orientation_beq_VV,
        if_true, if_false, List.length_cons] at hh hv
      obtain ⟨v0, vs', rfl⟩ : ∃ v0 vs', vs = v0 :: vs' := by
        cases vs with
        | nil => simp at hv
        | cons a t => exact ⟨a, t, rfl⟩
      unfold buildPath
      rw [horient]
      simp only [List.headD_cons, List.tail_cons, List.getLastD_cons]
      have := ih hs vs' ⟨cur.x, cur.y + v0⟩ cur hh (by simpa using hv)
      rw [List.getLastD_cons] at this
      rw [this]
      ext <;> simp <;> ring


lemma snapToGrid_eq_round (v : ℚ) : snapToGrid v = ((round v : ℤ) : ℚ) := by
  unfold snapToGrid GRID_SIZE
  rw [div_one, mul_one]

lemma one_le_snap_sub (u v : ℚ) (h : 1 ≤ v - u) : 1 ≤ snapToGrid v - snapToGrid u := by
  rw [snapToGrid_eq_round, snapToGrid_eq_round]
  have h1 : round u + 1 ≤ round v := by
    rw [round_eq, round_eq]
    have h2 : u + 1 / 2 + 1 ≤ v + 1 / 2 := by linarith
    calc ⌊u + 1 / 2⌋ + 1 = ⌊u + 1 / 2 + 1⌋ := (Int.floor_add_one (u + 1 / 2)).symm
      _ ≤ ⌊v + 1 / 2⌋ := Int.floor_le_floor h2
  have : ((round u : ℤ) : ℚ) + 1 ≤ ((round v : ℤ) : ℚ) := by exact_mod_cast h1
  linarith

lemma one_le_sq_snap_sub (u v : ℚ) (h : 1 ≤ |v - u|) :
    1 ≤ (snapToGrid v - snapToGrid u) ^ 2 := by
  rcases le_abs.mp h with h1 | h1
  · have := one_le_snap_sub u v h1
    nlinarith
  · have := one_le_snap_sub v u (by linarith)
    nlinarith


lemma pathPointsOf_eq (segs : List Segment) (ms : Point) :
    pathPointsOf segs ms =
      (⟨snapToGrid ms.x, snapToGrid ms.y⟩ : Point) ::
        buildPath segs
          (solveDirections (segs.filter fun s => s.orientation == Orientation.H))
          (solveDirections (segs.filter fun s => s.orientation == Orientation.V))
          ⟨snapToGrid ms.x, snapToGrid ms.y⟩ := rfl

lemma normalizedPointsOf_eq (segs : List Segment) (ms : Point) :
    normalizedPointsOf segs ms =
      (pathPointsOf segs ms).map (fun p =>
        (⟨snapToGrid (p.x + (10 - jsMinOf ((pathPointsOf segs ms).map (·.x)))),
          snapToGrid (p.y + (10 - jsMinOf ((pathPointsOf segs ms).map (·.y))))⟩ :
          Point)) := rfl

lemma bulkSolve_open_of_fails (segs : List Segment) (ms : Point)
    (h : (solverFails (segs.filter fun s => s.orientation == Orientation.H) ∧
           1 ≤ ((segs.filter fun s => s.orientation == Orientation.H).map
             (·.length)).sum) ∨
         (solverFails (segs.filter fun s => s.orientation == Orientation.V) ∧
           1 ≤ ((segs.filter fun s => s.orientation == Orientation.V).map
             (·.length)).sum)) :
    1 ≤ closureDistSq (normalizedPointsOf segs ms) ∧
    bulkSolve segs ms = .walls (consecWalls (normalizedPointsOf segs ms)) := by
  have hne : segs ≠ [] := by
    rintro rfl
    rcases h with ⟨_, hsum⟩ | ⟨_, hsum⟩ <;> simp at hsum <;> linarith
  set cur : Point := ⟨snapToGrid ms.x, snapToGrid ms.y⟩ with hcur
  set hls := solveDirections (segs.filter fun s => s.orientation == Orientation.H)
    with hhls
  set vls := solveDirections (segs.filter fun s => s.orientation == Orientation.V)
    with hvls
  set ox := 10 - jsMinOf ((pathPointsOf segs ms).map (·.x)) with hox
  set oy := 10 - jsMinOf ((pathPointsOf segs ms).map (·.y)) with hoy
  have hlastraw : (pathPointsOf segs ms).getLastD cur =
      ⟨cur.x + hls.sum, cur.y + vls.sum⟩ := by
    rw [pathPointsOf_eq]
    exact buildPath_getLastD segs hls vls cur cur
      (solveDirections_length _) (solveDirections_length _)
  have hhead : (normalizedPointsOf segs ms).headD default =
      ⟨snapToGrid (cur.x + ox), snapToGrid (cur.y + oy)⟩ := by
    rw [normalizedPointsOf_eq, pathPointsOf_eq]
    rfl
  have hlast : (normalizedPointsOf segs ms).getLastD default =
      ⟨snapToGrid (cur.x + hls.sum + ox), snapToGrid (cur.y + vls.sum + oy)⟩ := by
    rw [normalizedPointsOf_eq]
    rw [getLastD_congr _ default
      (⟨snapToGrid (cur.x + ox), snapToGrid (cur.y + oy)⟩ : Point)
      (by rw [pathPointsOf_eq]; simp)]
    have hmap := getLastD_map (fun p : Point =>
      (⟨snapToGrid (p.x + ox), snapToGrid (p.y + oy)⟩ : Point))
      (pathPointsOf segs ms) cur
    rw [hmap, hlastraw]
  have hdist : 1 ≤ closureDistSq (normalizedPointsOf segs ms) := by
    unfold closureDistSq
    rw [hhead, hlast]
    dsimp only
    rcases h with ⟨hfail, hsum⟩ | ⟨hfail, hsum⟩
    · have hsums : 1 ≤ hls.sum := by
        rw [hhls, solveDirections_of_fails _ hfail]
        exact hsum
      have hx := one_le_sq_snap_sub (cur.x + ox) (cur.x + hls.sum + ox) (by
        rw [show cur.x + hls.sum + ox - (cur.x + ox) = hls.sum from by ring]
        exact le_trans hsums (le_abs_self _))
      have hy := sq_nonneg (snapToGrid (cur.y + vls.sum + oy) -
        snapToGrid (cur.y + oy))
      linarith
    · have hsums : 1 ≤ vls.sum := by
        rw [hvls, solveDirections_of_fails _ hfail]
        exact hsum
      have hy := one_le_sq_snap_sub (cur.y + oy) (cur.y + vls.sum + oy) (by
        rw [show cur.y + vls.sum + oy - (cur.y + oy) = vls.sum from by ring]
        exact le_trans hsums (le_abs_self _))
      have hx := sq_nonneg (snapToGrid (cur.x + hls.sum + ox) -
        snapToGrid (cur.x + ox))
      linarith
  refine ⟨hdist, ?_⟩
  have hemp : segs.isEmpty = false := by simp [List.isEmpty_iff, hne]
  unfold bulkSolve
  rw [hemp]
  simp only [Bool.false_eq_true, if_false]
  rw [if_neg (not_lt.mpr hdist)]


/-- Translation of a point by another point, used to relate solver runs from
different start positions. -/
def shiftP (t q : Point) : Point := ⟨q.x + t.x, q.y + t.y⟩

lemma buildPath_shift (segs : List Segment) :
    ∀ (hs vs : List ℚ) (p t : Point),
      buildPath segs hs vs (shiftP t p) = (buildPath segs hs vs p).map (shiftP t) := by
  induction segs with
  | nil =>
    intro hs vs p t
    rfl
  | cons seg rest ih =>
    intro hs vs p t
    cases horient : seg.orientation with
    | H =>
      unfold buildPath
      rw [horient]
      dsimp only
      have hnext : (⟨(shiftP t p).x + hs.headD 0, (shiftP t p).y⟩ : Point) =
          shiftP t ⟨p.x + hs.headD 0, p.y⟩ := by
        ext <;> simp [shiftP] <;> ring
      rw [hnext, ih hs.tail vs ⟨p.x + hs.headD 0, p.y⟩ t, List.map_cons]
    | V =>
      unfold buildPath
      rw [horient]
      dsimp only
      have hnext : (⟨(shiftP t p).x, (shiftP t p).y + vs.headD 0⟩ : Point) =
          shiftP t ⟨p.x, p.y + vs.headD 0⟩ := by
        ext <;> simp [shiftP] <;> ring
      rw [hnext, ih hs vs.tail ⟨p.x, p.y + vs.headD 0⟩ t, List.map_cons]

lemma foldl_min_add (l : List ℚ) :
    ∀ (a c : ℚ), (l.map (· + c)).foldl min (a + c) = l.foldl min a + c := by
  induction l with
  | nil =>
    intro a c
    rfl
  | cons b t ih =>
    intro a c
    simp only [List.map_cons, List.foldl_cons]
    rw [min_add_add_right, ih]

lemma jsMinOf_map_add (l : List ℚ) (c : ℚ) (h : l ≠ []) :
    jsMinOf (l.map (· + c)) = jsMinOf l + c := by
  cases l with
  | nil => exact absurd rfl h
  | cons a t =>
    unfold jsMinOf
    simp only [List.map_cons]
    exact foldl_min_add t a c

lemma snapToGrid_zero : snapToGrid 0 = 0 := by
  rw [snapToGrid_eq_round]
  norm_num

lemma pathPointsOf_shift (segs : List Segment) (ms : Point) :
    pathPointsOf segs ms =
      (pathPointsOf segs ⟨0, 0⟩).map
        (shiftP ⟨snapToGrid ms.x, snapToGrid ms.y⟩) := by
  rw [pathPointsOf_eq, pathPointsOf_eq]
  rw [List.map_cons]
  have hz : (⟨snapToGrid (0 : ℚ), snapToGrid (0 : ℚ)⟩ : Point) = ⟨0, 0⟩ := by
    rw [snapToGrid_zero]
  rw [hz]
  have hsz : shiftP ⟨snapToGrid ms.x, snapToGrid ms.y⟩ ⟨0, 0⟩ =
      (⟨snapToGrid ms.x, snapToGrid ms.y⟩ : Point) := by
    ext <;> simp [shiftP]
  rw [← buildPath_shift, hsz]


lemma normalizedPointsOf_invariant (segs : List Segment) (ms : Point) :
    normalizedPointsOf segs ms = normalizedPointsOf segs ⟨0, 0⟩ := by
  set S : Point := ⟨snapToGrid ms.x, snapToGrid ms.y⟩ with hS
  have hpath := pathPointsOf_shift segs ms
  have hne : pathPointsOf segs ⟨0, 0⟩ ≠ [] := by
    rw [pathPointsOf_eq]
    simp
  have hxs : (pathPointsOf segs ms).map (·.x) =
      ((pathPointsOf segs ⟨0, 0⟩).map (·.x)).map (· + S.x) := by
    rw [hpath, List.map_map, List.map_map]
    rfl
  have hys : (pathPointsOf segs ms).map (·.y) =
      ((pathPointsOf segs ⟨0, 0⟩).map (·.y)).map (· + S.y) := by
    rw [hpath, List.map_map, List.map_map]
    rfl
  have hnex : (pathPointsOf segs ⟨0, 0⟩).map (·.x) ≠ [] := by
    simpa using hne
  have hney : (pathPointsOf segs ⟨0, 0⟩).map (·.y) ≠ [] := by
    simpa using hne
  have hminx : jsMinOf ((pathPointsOf segs ms).map (·.x)) =
      jsMinOf ((pathPointsOf segs ⟨0, 0⟩).map (·.x)) + S.x := by
    rw [hxs]
    exact jsMinOf_map_add _ _ hnex
  have hminy : jsMinOf ((pathPointsOf segs ms).map (·.y)) =
      jsMinOf ((pathPointsOf segs ⟨0, 0⟩).map (·.y)) + S.y := by
    rw [hys]
    exact jsMinOf_map_add _ _ hney
  rw [normalizedPointsOf_eq segs ms, normalizedPointsOf_eq segs ⟨0, 0⟩]
  rw [hminx, hminy, hpath, List.map_map]
  apply List.map_congr_left
  intro q hq
  ext
  · exact congrArg snapToGrid (by simp [shiftP]; ring)
  · exact congrArg snapToGrid (by simp [shiftP]; ring)

lemma bulkSolve_invariant (segs : List Segment) (ms : Point) :
    bulkSolve segs ms = bulkSolve segs ⟨0, 0⟩ := by
  unfold bulkSolve
  rw [normalizedPointsOf_invariant]


/-- C1: for the square input 2H 2V 2H 2V, the sign search zeroes both the H
and V subsequences within 0.01, the normalized path closes (squared
last-to-first distance under 1), and the solver emits a room whose points are
the four path corners (closing point dropped) with polygon area 4, from any
start position. -/
theorem C1_square_closes :
    ∀ ms : Point,
      |(solveDirections ([⟨2, Orientation.H⟩, ⟨2, Orientation.V⟩,
          ⟨2, Orientation.H⟩, ⟨2, Orientation.V⟩].filter
          (fun s => s.orientation == Orientation.H))).sum| < 1/100 ∧
      |(solveDirections ([⟨2, Orientation.H⟩, ⟨2, Orientation.V⟩,
          ⟨2, Orientation.H⟩, ⟨2, Orientation.V⟩].filter
          (fun s => s.orientation == Orientation.V))).sum| < 1/100 ∧
      closureDistSq (normalizedPointsOf [⟨2, Orientation.H⟩, ⟨2, Orientation.V⟩,
        ⟨2, Orientation.H⟩, ⟨2, Orientation.V⟩] ms) < 1 ∧
      bulkSolve [⟨2, Orientation.H⟩, ⟨2, Orientation.V⟩,
        ⟨2, Orientation.H⟩, ⟨2, Orientation.V⟩] ms =
        .room [⟨10, 10⟩, ⟨12, 10⟩, ⟨12, 12⟩, ⟨10, 12⟩] ∧
      calculatePolygonArea [⟨10, 10⟩, ⟨12, 10⟩, ⟨12, 12⟩, ⟨10, 12⟩] = 4 := by
  intro ms
  refine ⟨?_, ?_, ?_, ?_, ?_⟩
  · norm_num [solveDirections, signedSum, signedLens, signedDir, List.range_succ,
      List.find?, List.enum, List.enumFrom, List.filter]
  · norm_num [solveDirections, signedSum, signedLens, signedDir, List.range_succ,
      List.find?, List.enum, List.enumFrom, List.filter]
  · rw [normalizedPointsOf_invariant]
    norm_num [normalizedPointsOf, pathPointsOf, buildPath, jsMinOf, closureDistSq,
      snapToGrid, GRID_SIZE, solveDirections, signedSum, signedLens, signedDir,
      List.range_succ, List.find?, List.enum, List.enumFrom, List.filter,
      round_eq, Int.floor_eq_iff]
  · rw [bulkSolve_invariant]
    norm_num [bulkSolve, normalizedPointsOf, pathPointsOf, buildPath, jsMinOf,
      closureDistSq, consecWalls, snapToGrid, GRID_SIZE, solveDirections,
      signedSum, signedLens, signedDir, List.range_succ, List.find?, List.enum,
      List.enumFrom, List.filter, round_eq, Int.floor_eq_iff]
  · norm_num [calculatePolygonArea, List.range_succ]

/-- C5 (amended): whenever the sign search fails for a subsequence (size cap
or exhausted search) and that subsequence's fallback total is at least 1 ft,
the normalized path does not close (squared last-to-first distance at least
1) and is emitted as temp-wall segments; in particular the single segment 5H
yields the open 2-point polyline (10,10)-(15,10) from any start position. -/
theorem C5_fallback_open_polyline :
    (∀ (segs : List Segment) (ms : Point),
      (solverFails (segs.filter fun s => s.orientation == Orientation.H) ∧
        1 ≤ ((segs.filter fun s => s.orientation == Orientation.H).map
          (·.length)).sum) ∨
      (solverFails (segs.filter fun s => s.orientation == Orientation.V) ∧
        1 ≤ ((segs.filter fun s => s.orientation == Orientation.V).map
          (·.length)).sum) →
      1 ≤ closureDistSq (normalizedPointsOf segs ms) ∧
      bulkSolve segs ms = .walls (consecWalls (normalizedPointsOf segs ms))) ∧
    (∀ ms : Point, solverFails [⟨5, Orientation.H⟩] ∧
      bulkSolve [⟨5, Orientation.H⟩] ms = .walls [(⟨10, 10⟩, ⟨15, 10⟩)]) := by
  refine ⟨fun segs ms h => bulkSolve_open_of_fails segs ms h, fun ms => ⟨?_, ?_⟩⟩
  · unfold solverFails
    right
    intro i hi
    have hi2 : i < 2 := by simpa using hi
    interval_cases i <;>
      norm_num [signedSum, signedLens, signedDir, List.enum, List.enumFrom,
        abs_of_pos]
  · rw [bulkSolve_invariant]
    norm_num [bulkSolve, normalizedPointsOf, pathPointsOf, buildPath, jsMinOf,
      closureDistSq, consecWalls, snapToGrid, GRID_SIZE, solveDirections,
      signedSum, signedLens, signedDir, List.range_succ, List.find?, List.enum,
      List.enumFrom, List.filter, round_eq, Int.floor_eq_iff]

/-- C5 counterexample: for the single segment of length 1/4 ft (input 0'3" H)
the sign search fails, yet after grid-snapping the normalized endpoints
coincide, so the solver emits a (degenerate one-point) Room, not temp walls:
a failed search does not imply an open polyline. -/
theorem C5_counterexample :
    solverFails [⟨1/4, Orientation.H⟩] ∧
    bulkSolve [⟨1/4, Orientation.H⟩] ⟨0, 0⟩ = .room [⟨10, 10⟩] := by
  constructor
  · unfold solverFails
    right
    intro i hi
    have hi2 : i < 2 := by simpa using hi
    interval_cases i <;>
      norm_num [signedSum, signedLens, signedDir, List.enum, List.enumFrom,
        abs_of_pos]
  · norm_num [bulkSolve, normalizedPointsOf, pathPointsOf, buildPath, jsMinOf,
      closureDistSq, consecWalls, snapToGrid, GRID_SIZE, solveDirections,
      signedSum, signedLens, signedDir, List.range_succ, List.find?, List.enum,
      List.enumFrom, List.filter, round_eq, Int.floor_eq_iff,
      show (decide (|(1:ℚ)/4| < 1/100)) = false from by
        rw [decide_eq_false_iff_not]
        norm_num [abs_of_pos]]

theorem C5_witness :
    1 ≤ closureDistSq (normalizedPointsOf [⟨5, Orientation.H⟩] ⟨0, 0⟩) ∧
    bulkSolve [⟨5, Orientation.H⟩] ⟨0, 0⟩ =
      .walls (consecWalls (normalizedPointsOf [⟨5, Orientation.H⟩] ⟨0, 0⟩)) :=
  C5_fallback_open_polyline.1 [⟨5, Orientation.H⟩] ⟨0, 0⟩
    (Or.inl ⟨by
      unfold solverFails
      right
      intro i hi
      have hi2 : i < 2 := by simpa using hi
      interval_cases i <;>
        norm_num [signedSum, signedLens, signedDir, List.enum, List.enumFrom,
          abs_of_pos],
      by norm_num [List.filter]⟩)

end FloorplanV2
